import Mathlib

/-!
Verification development for the quVario repository.

The repository has two source files:

* helium_marki/hydr_var.py — a variational-method estimator for the
  hydrogen ground-state energy.  A symbolic layer (sympy) builds the
  Hamiltonian image of a trial function in spherical coordinates; a
  numeric layer (scipy quad and fmin) integrates and minimises.
* helium_markii/optipack.py — a Metropolis--Hastings sampler and a
  Monte Carlo integrator over walkers.

The symbolic layer is embedded as an inductive expression type with a
computable symbolic derivative, together with an evaluation semantics
into an arbitrary linearly ordered field (instantiated at the reals for
analytic statements, and at the rationals for concrete evaluations).
The numeric backends (quad, fmin, sqrt, numpy random streams) are
external collaborators and are passed in as explicit function
parameters.  Fallible Python code (division by zero, min of an empty
list, an exception escaping the per-candidate loop) is modelled with
Except over an error type.
-/

namespace QuVario

/-- Python runtime errors that the embedded code can raise:
ZeroDivisionError from the reciprocal in norm_intgrl, ValueError from
min applied to an empty list. -/
inductive PyErr where
  | zeroDivision
  | valueError
  deriving DecidableEq

/-- Symbolic expressions over the radial base scalar R.r and the free
parameter alpha, mirroring the sympy expressions that hydr_var.py
manipulates.  Integer powers cover the factors 1/R.r, R.r ** 2 and
1/R.r ** 2 produced by the Hamiltonian and the spherical Laplacian;
expf is the sympy exp used by the trial functions; conj is sympy
conjugate. -/
inductive SymExpr where
  | const : ℚ → SymExpr
  | varR : SymExpr
  | varAlpha : SymExpr
  | add : SymExpr → SymExpr → SymExpr
  | mul : SymExpr → SymExpr → SymExpr
  | neg : SymExpr → SymExpr
  | pow : SymExpr → ℤ → SymExpr
  | expf : SymExpr → SymExpr
  | conj : SymExpr → SymExpr
  deriving DecidableEq

variable {K : Type} [LinearOrderedField K]

/-- Evaluation semantics of a symbolic expression at radial coordinate r
and parameter value a.  The exponential is supplied as an explicit
function parameter expF so that the definition stays polymorphic in the
scalar field; at the reals it is instantiated with Real.exp.  All
quantities in the source are real valued, so conjugation evaluates to
the identity. -/
def eval (expF : K → K) : SymExpr → K → K → K
  | SymExpr.const q, _, _ => (q : K)
  | SymExpr.varR, r, _ => r
  | SymExpr.varAlpha, _, a => a
  | SymExpr.add f g, r, a => eval expF f r a + eval expF g r a
  | SymExpr.mul f g, r, a => eval expF f r a * eval expF g r a
  | SymExpr.neg f, r, a => -eval expF f r a
  | SymExpr.pow f n, r, a => eval expF f r a ^ n
  | SymExpr.expf f, r, a => expF (eval expF f r a)
  | SymExpr.conj f, r, a => eval expF f r a

/-- Symbolic derivative with respect to the radial coordinate, the
operation sympy performs when hydr_var.py applies the Del operator. -/
def sdiff : SymExpr → SymExpr
  | SymExpr.const _ => SymExpr.const 0
  | SymExpr.varR => SymExpr.const 1
  | SymExpr.varAlpha => SymExpr.const 0
  | SymExpr.add f g => SymExpr.add (sdiff f) (sdiff g)
  | SymExpr.mul f g =>
      SymExpr.add (SymExpr.mul (sdiff f) g) (SymExpr.mul f (sdiff g))
  | SymExpr.neg f => SymExpr.neg (sdiff f)
  | SymExpr.pow f n =>
      SymExpr.mul (SymExpr.mul (SymExpr.const (n : ℚ)) (SymExpr.pow f (n - 1))) (sdiff f)
  | SymExpr.expf f => SymExpr.mul (SymExpr.expf f) (sdiff f)
  | SymExpr.conj f => SymExpr.conj (sdiff f)

/-- Side condition under which every integer power occurring in an
expression is differentiable at the point (r, a): each base with a
negative exponent must evaluate to a nonzero value there. -/
def PowSafe (expF : K → K) : SymExpr → K → K → Prop
  | SymExpr.const _, _, _ => True
  | SymExpr.varR, _, _ => True
  | SymExpr.varAlpha, _, _ => True
  | SymExpr.add f g, r, a => PowSafe expF f r a ∧ PowSafe expF g r a
  | SymExpr.mul f g, r, a => PowSafe expF f r a ∧ PowSafe expF g r a
  | SymExpr.neg f, r, a => PowSafe expF f r a
  | SymExpr.pow f n, r, a => (eval expF f r a ≠ 0 ∨ 0 ≤ n) ∧ PowSafe expF f r a
  | SymExpr.expf f, r, a => PowSafe expF f r a
  | SymExpr.conj f, r, a => PowSafe expF f r a

/-- del2 from hydr_var.py: the Laplacian of a scalar field depending on
the radial coordinate only, as sympy computes it from the divergence of
the gradient in the spherical coordinate system R,
(1/r^2) d/dr (r^2 d f/dr). -/
def del2 (f : SymExpr) : SymExpr :=
  SymExpr.mul (SymExpr.pow SymExpr.varR (-2))
    (sdiff (SymExpr.mul (SymExpr.pow SymExpr.varR 2) (sdiff f)))

/-- H from hydr_var.py: the Hamiltonian operator applied to a trial
function, - 1/2 * del2(psi) - 1/R.r * psi, in atomic units. -/
def H (psi : SymExpr) : SymExpr :=
  SymExpr.add
    (SymExpr.neg (SymExpr.mul (SymExpr.const (1 / 2)) (del2 psi)))
    (SymExpr.neg (SymExpr.mul (SymExpr.pow SymExpr.varR (-1)) psi))

/-- jacobian from hydr_var.py: the volume element R.r ** 2 supplied
manually (the sin theta factor is folded out by symmetry). -/
def jacobian : SymExpr := SymExpr.pow SymExpr.varR 2

/-- The expectation integrand that energy in hydr_var.py lambdifies:
simplify(conjugate(psi) * H(psi)) * jacobian.  The sympy simplify
routine is an external collaborator, passed as the parameter
simplifyF. -/
def expectationIntegrand (simplifyF : SymExpr → SymExpr) (psi : SymExpr) : SymExpr :=
  SymExpr.mul (simplifyF (SymExpr.mul (SymExpr.conj psi) (H psi))) jacobian

/-- The normalisation integrand that energy in hydr_var.py lambdifies:
conjugate(psi) * psi * jacobian.  Note the source does not pass this
product through simplify. -/
def normIntegrand (psi : SymExpr) : SymExpr :=
  SymExpr.mul (SymExpr.mul (SymExpr.conj psi) psi) jacobian

/-- Refinement definition following the words of the specification for
the Expectation Builder, which says simplification is applied to both
integrands: the normalisation integrand with simplify applied before
the jacobian weighting.  To be compared with normIntegrand, the
definition taken from the source. -/
def specNormIntegrand (simplifyF : SymExpr → SymExpr) (psi : SymExpr) : SymExpr :=
  SymExpr.mul (simplifyF (SymExpr.mul (SymExpr.conj psi) psi)) jacobian

/-- expectation_intgrl from hydr_var.py.  The adaptive quadrature
routine scipy.integrate.quad is an external collaborator, passed as the
parameter quad; it takes the integrand, the two bounds and the extra
argument a, and returns the pair (value, estimated error), of which the
source keeps component 0.  The source passes the literal 0 as the lower
bound, not stpt. -/
def expectation_intgrl (quad : (K → K → K) → K → K → K → K × K)
    (expectation_lamb : K → K → K) (a stpt endpt : K) : K :=
  (quad expectation_lamb 0 endpt a).1

/-- norm_intgrl from hydr_var.py: integrates the normalisation
integrand from stpt to endpt and returns the reciprocal N_squared =
1 / integral.  The Python float division raises ZeroDivisionError
exactly when the integral is zero, modelled by the error branch. -/
def norm_intgrl (quad : (K → K → K) → K → K → K → K × K)
    (norm_lamb : K → K → K) (a stpt endpt : K) : Except PyErr K :=
  let ni := (quad norm_lamb stpt endpt a).1
  if ni = 0 then Except.error PyErr.zeroDivision else Except.ok (1 / ni)

/-- var_intgrl from hydr_var.py: the product of the normalisation
reciprocal and the expectation integral; a ZeroDivisionError raised by
norm_intgrl propagates.  The left factor is evaluated first, as in the
Python expression. -/
def var_intgrl (quad : (K → K → K) → K → K → K → K × K) (a : K)
    (expectation_lamb norm_lamb : K → K → K) (stpt endpt : K) : Except PyErr K :=
  match norm_intgrl quad norm_lamb a stpt endpt with
  | Except.error e => Except.error e
  | Except.ok n2 =>
      Except.ok (n2 * expectation_intgrl quad expectation_lamb a stpt endpt)

/-- energy from hydr_var.py: builds the two lambdified integrands from
the trial function and hands the variational objective at the default
bounds stpt = 0, endpt = 1000 to the minimiser with initial guess 0.1.
The scipy fmin minimiser is an external collaborator, passed as the
parameter fmin; it receives the fallible objective and the guess and
returns the optimised (parameter, value) pair or propagates an
exception raised by the objective. -/
def energy (expF : K → K) (simplifyF : SymExpr → SymExpr)
    (quad : (K → K → K) → K → K → K → K × K)
    (fmin : (K → Except PyErr K) → K → Except PyErr (K × K))
    (psi : SymExpr) : Except PyErr (K × K) :=
  let expectation_lamb : K → K → K :=
    fun r a => eval expF (expectationIntegrand simplifyF psi) r a
  let norm_lamb : K → K → K :=
    fun r a => eval expF (normIntegrand psi) r a
  fmin (fun a => var_intgrl quad a expectation_lamb norm_lamb 0 1000) (1 / 10)

/-- The candidate loop of main in hydr_var.py: run energy on each trial
function in order, collecting the (parameter, energy) pairs; the first
exception aborts the loop and propagates. -/
def runPipeline (energyF : SymExpr → Except PyErr (K × K)) :
    List SymExpr → Except PyErr (List (K × K))
  | [] => Except.ok []
  | psi :: rest =>
      match energyF psi with
      | Except.error e => Except.error e
      | Except.ok v =>
          match runPipeline energyF rest with
          | Except.error e => Except.error e
          | Except.ok vs => Except.ok (v :: vs)

/-- main from hydr_var.py, over the list of trial functions parsed from
the input file (file loading itself is out of scope per the
specification): runs the pipeline on every candidate, then returns
min(energies).  Python min raises ValueError on an empty sequence and
otherwise left-folds the binary minimum over the list. -/
def main (expF : K → K) (simplifyF : SymExpr → SymExpr)
    (quad : (K → K → K) → K → K → K → K × K)
    (fmin : (K → Except PyErr K) → K → Except PyErr (K × K))
    (trialfuncs : List SymExpr) : Except PyErr K :=
  match runPipeline (energy expF simplifyF quad fmin) trialfuncs with
  | Except.error e => Except.error e
  | Except.ok results =>
      match results.map Prod.snd with
      | [] => Except.error PyErr.valueError
      | e :: es => Except.ok (es.foldl min e)

/-- Walker state threaded through the Metropolis--Hastings loop of
optipack.py: the per-electron position matrix, the accumulated
rejection fraction (source name reject_ratio), the diagnostic trace of
coordinate 3 (source name test) and the collected sample points. -/
structure MHState (K : Type) where
  matrix : List (List K)
  reject : K
  test : List K
  samples : List (List K)

/-- One iteration of the sampling loop of metropolis_hastings in
optipack.py.  Randomness is modelled by explicit streams: rand k is the
k-th scalar drawn by np.random.rand across the call (a rand(3) call
consumes three consecutive entries) and randint i is the i-th draw of
np.random.randint(0, dims/3), reduced modulo the number of electrons nd
to stay in range.  Iteration i consumes randint draw i and rand draws
3*nd + 4*i .. 3*nd + 4*i + 3 (three for the step, one for the
acceptance test).  The source guards sample collection by
i > equi_threshold with equi_threshold = 0 and by (i - therm) % therm
== 0 with therm = 1, which always holds, so samples are collected for
every i > 0.  The diagnostic trace appends flattened coordinate 3
(defaulting to 0 when dims < 4, where the Python code would raise
an IndexError instead). -/
def mhStep (pfunc : List K → K → K) (iter : ℕ) (alpha : K) (dims : ℕ)
    (rand : ℕ → K) (randint : ℕ → ℕ) (st : MHState K) (i : ℕ) : MHState K :=
  let s : K := 3
  let nd : ℕ := dims / 3
  let e_index := randint i % nd
  let base := 3 * nd + 4 * i
  let delta : List K :=
    [(2 * s * rand base - s) / ((dims : K) / 3),
     (2 * s * rand (base + 1) - s) / ((dims : K) / 3),
     (2 * s * rand (base + 2) - s) / ((dims : K) / 3)]
  let trial_matrix :=
    st.matrix.set e_index (List.zipWith (· + ·) (st.matrix.getD e_index []) delta)
  let proposed_pt := trial_matrix.flatten
  let initial_pt := st.matrix.flatten
  let p := pfunc proposed_pt alpha / pfunc initial_pt alpha
  let accept := rand (base + 3) < p
  let matrix2 := if accept then trial_matrix else st.matrix
  let reject2 := if accept then st.reject else st.reject + 1 / (iter : K)
  if 0 < i then
    MHState.mk matrix2 reject2 (st.test ++ [matrix2.flatten.getD 3 0])
      (st.samples ++ [matrix2.flatten])
  else MHState.mk matrix2 reject2 st.test st.samples

/-- metropolis_hastings from optipack.py: initialise each of the
dims/3 electron rows from three uniform draws rescaled to [-s, s) with
s = 3, run iter sampling iterations, and return the collected samples,
the rejection fraction and the diagnostic trace. -/
def metropolis_hastings (pfunc : List K → K → K) (iter : ℕ) (alpha : K)
    (dims : ℕ) (rand : ℕ → K) (randint : ℕ → ℕ) :
    List (List K) × K × List K :=
  let s : K := 3
  let nd : ℕ := dims / 3
  let initial_matrix : List (List K) :=
    (List.range nd).map fun i =>
      [2 * s * rand (3 * i) - s, 2 * s * rand (3 * i + 1) - s,
       2 * s * rand (3 * i + 2) - s]
  let final := (List.range iter).foldl
    (mhStep pfunc iter alpha dims rand randint)
    (MHState.mk initial_matrix 0 [] [])
  (final.samples, final.reject, final.test)

/-- integrator_mcmc from optipack.py: for each of the walkers run a
fresh Metropolis--Hastings chain (successive walkers consume successive
portions of the global random streams, 3*(dims/3) + 4*sample_iter
scalar draws and sample_iter integer draws per walker), sum the
observable qfunc over the collected samples (therm = 0, so the slice
keeps all of them) and divide the sum by sample_iter - therm, then
average the per-walker values, form the population variance across
walkers and the standard error sqrt(variance/walkers), and return them
together with the rejection fraction of the last walker, the
accumulated observable trace and the diagnostic trace of the last
walker.  The square root is an external numeric primitive, passed as
sqrtF. -/
def integrator_mcmc (pfunc qfunc : List K → K → K) (sample_iter walkers : ℕ)
    (alpha : K) (dims : ℕ) (sqrtF : K → K) (rand : ℕ → K) (randint : ℕ → ℕ) :
    K × K × K × List K × List K :=
  let therm : ℕ := 0
  let nd : ℕ := dims / 3
  let realsPerWalker := 3 * nd + 4 * sample_iter
  let acc := (List.range walkers).foldl
    (fun (st : List K × List K × K × List K) (i : ℕ) =>
      let r := metropolis_hastings pfunc sample_iter alpha dims
        (fun k => rand (i * realsPerWalker + k))
        (fun k => randint (i * sample_iter + k))
      let mc_samples := r.1
      let qvals := (mc_samples.drop therm).map fun array => qfunc array alpha
      let sums := qvals.foldl (· + ·) 0
      (st.1 ++ [sums / ((sample_iter : K) - (therm : K))],
       st.2.1 ++ qvals, r.2.1, r.2.2))
    ([], [], 0, [])
  let vals := acc.1
  let vals_squared := ((vals.map fun v => v ^ 2).foldl (· + ·) 0)
  let vals_avg := (vals.foldl (· + ·) 0) / (walkers : K)
  let variance := vals_squared / (walkers : K) - vals_avg ^ 2
  let std_error := sqrtF (variance / (walkers : K))
  (vals_avg, std_error, acc.2.2.1, acc.2.1, acc.2.2.2)

/-! Concrete rational-valued backends used by the closed evaluation
theorems below.  They implement the external collaborator contracts in
the simplest executable way: wQuad evaluates the integrand at the upper
bound, wQuadLo reports the lower bound, wQuadTwo, wQuadNeg and
wQuadZero are constant, and wFmin evaluates the objective once at the
initial guess, propagating any exception, the way scipy fmin lets an
exception raised by the objective escape. -/

/-- Identity stand-in for the sympy simplify collaborator. -/
def wSimplify : SymExpr → SymExpr := id

/-- Identity stand-in for the exponential on rationals. -/
def wExpF : ℚ → ℚ := id

/-- Quadrature stand-in evaluating the integrand at the upper bound. -/
def wQuad : (ℚ → ℚ → ℚ) → ℚ → ℚ → ℚ → ℚ × ℚ :=
  fun f _ hi a => (f hi a, 0)

/-- Quadrature stand-in reporting its lower bound, used to observe
which lower bound the integral evaluators pass. -/
def wQuadLo : (ℚ → ℚ → ℚ) → ℚ → ℚ → ℚ → ℚ × ℚ :=
  fun _ lo _ _ => (lo + 1, 0)

/-- Constant quadrature stand-in returning 2. -/
def wQuadTwo : (ℚ → ℚ → ℚ) → ℚ → ℚ → ℚ → ℚ × ℚ :=
  fun _ _ _ _ => (2, 0)

/-- Constant quadrature stand-in returning -1. -/
def wQuadNeg : (ℚ → ℚ → ℚ) → ℚ → ℚ → ℚ → ℚ × ℚ :=
  fun _ _ _ _ => (-1, 0)

/-- Constant quadrature stand-in returning 0. -/
def wQuadZero : (ℚ → ℚ → ℚ) → ℚ → ℚ → ℚ → ℚ × ℚ :=
  fun _ _ _ _ => (0, 0)

/-- Minimiser stand-in evaluating the objective once at the guess. -/
def wFmin : (ℚ → Except PyErr ℚ) → ℚ → Except PyErr (ℚ × ℚ) :=
  fun obj g =>
    match obj g with
    | Except.error e => Except.error e
    | Except.ok v => Except.ok (g, v)

/-! Correctness of the symbolic derivative: under the PowSafe side
condition, the symbolic derivative computed by sdiff is the analytic
derivative of the evaluation semantics.  This is the bridge between
the sympy manipulation embedded in sdiff and the mathematical Laplacian
named by the specification. -/

/-- The evaluation of an expression is differentiable in the radial
coordinate wherever its negative powers have nonzero bases, and its
derivative is the evaluation of the symbolic derivative. -/
theorem hasDerivAt_eval (a : ℝ) :
    ∀ (e : SymExpr) (r : ℝ), PowSafe Real.exp e r a →
      HasDerivAt (fun s => eval Real.exp e s a) (eval Real.exp (sdiff e) r a) r := by
  intro e
  induction e with
  | const q =>
      intro r _
      simpa [eval, sdiff] using hasDerivAt_const r ((q : ℝ))
  | varR =>
      intro r _
      simpa [eval, sdiff] using hasDerivAt_id r
  | varAlpha =>
      intro r _
      simpa [eval, sdiff] using hasDerivAt_const r a
  | add f g ihf ihg =>
      intro r h
      exact (ihf r h.1).add (ihg r h.2)
  | mul f g ihf ihg =>
      intro r h
      exact (ihf r h.1).mul (ihg r h.2)
  | neg f ih =>
      intro r h
      exact (ih r h).neg
  | pow f n ih =>
      intro r h
      have hf := ih r h.2
      have hz := (hasDerivAt_zpow n (eval Real.exp f r a) h.1).comp r hf
      convert hz using 1
  | expf f ih =>
      intro r h
      exact (ih r h).exp
  | conj f ih =>
      intro r h
      exact ih r h

/-- Structural unfolding of the evaluation of the Hamiltonian image:
the kinetic factor exposes the inner symbolic derivative of
r^2 times the first symbolic derivative of the trial function. -/
theorem eval_H (expF : ℝ → ℝ) (psi : SymExpr) (r a : ℝ) :
    eval expF (H psi) r a =
      -((((1 : ℚ) / 2 : ℚ) : ℝ) *
          (r ^ (-2 : ℤ) *
            eval expF (sdiff (SymExpr.mul (SymExpr.pow SymExpr.varR 2) (sdiff psi))) r a))
        + -(r ^ (-1 : ℤ) * eval expF psi r a) := rfl

/-- C1: for every trial function psi whose evaluation is symbolically
twice differentiable in the radial coordinate (PowSafe for psi
everywhere and for its derivative at the point of interest), the
Hamiltonian image built by H evaluates to
-(1/2) * Laplacian(psi) - (1/r) * psi, where the Laplacian is the
genuine analytic spherical Laplacian (1/r^2) d/dr (r^2 d psi/dr) of
the evaluated trial function. -/
theorem C1_hamiltonian_is_spherical (psi : SymExpr) (r a : ℝ)
    (hpsi : ∀ s, PowSafe Real.exp psi s a)
    (hd : PowSafe Real.exp (sdiff psi) r a) :
    eval Real.exp (H psi) r a
      = -(1 / 2) * (deriv (fun s => s ^ 2 * deriv (fun t => eval Real.exp psi t a) s) r / r ^ 2)
        - (1 / r) * eval Real.exp psi r a := by
  have hderiv : ∀ s : ℝ,
      deriv (fun t => eval Real.exp psi t a) s = eval Real.exp (sdiff psi) s a :=
    fun s => (hasDerivAt_eval a psi s (hpsi s)).deriv
  have hfun : (fun s : ℝ => s ^ 2 * deriv (fun t => eval Real.exp psi t a) s)
      = fun s : ℝ =>
          eval Real.exp (SymExpr.mul (SymExpr.pow SymExpr.varR 2) (sdiff psi)) s a := by
    funext s
    rw [hderiv s]
    simp only [eval]
    rw [zpow_two, pow_two]
  have hsafe : PowSafe Real.exp (SymExpr.mul (SymExpr.pow SymExpr.varR 2) (sdiff psi)) r a :=
    ⟨⟨Or.inr (by norm_num), trivial⟩, hd⟩
  have hE :=
    (hasDerivAt_eval a (SymExpr.mul (SymExpr.pow SymExpr.varR 2) (sdiff psi)) r hsafe).deriv
  rw [eval_H, hfun, hE]
  have h2 : (r : ℝ) ^ (-2 : ℤ) = (r ^ 2)⁻¹ := by rw [zpow_neg, zpow_two, pow_two]
  have h1 : (r : ℝ) ^ (-1 : ℤ) = r⁻¹ := by rw [zpow_neg, zpow_one]
  rw [h2, h1]
  push_cast
  ring

/-- Witness for C1 at the concrete trial function psi = r, radial point
r = 1 and parameter a = 0. -/
theorem C1_hamiltonian_is_spherical_witness :
    eval Real.exp (H SymExpr.varR) 1 0
      = -(1 / 2) *
          (deriv (fun s => s ^ 2 * deriv (fun t => eval Real.exp SymExpr.varR t 0) s) 1 / 1 ^ 2)
        - (1 / 1) * eval Real.exp SymExpr.varR 1 0 :=
  C1_hamiltonian_is_spherical SymExpr.varR 1 0 (fun _ => trivial) trivial

/-- C2: whenever the normalisation integral produces a value (the
squared normalisation constant n2), the variational objective equals
the product of that value with the expectation integral. -/
theorem C2_variational_product (quad : (K → K → K) → K → K → K → K × K)
    (E N : K → K → K) (a stpt endpt n2 : K)
    (h : norm_intgrl quad N a stpt endpt = Except.ok n2) :
    var_intgrl quad a E N stpt endpt
      = Except.ok (n2 * expectation_intgrl quad E a stpt endpt) := by
  simp [var_intgrl, h]

/-- Witness for C2 with a constant quadrature backend returning 2, so
the normalisation reciprocal is 1/2. -/
theorem C2_variational_product_witness :
    var_intgrl wQuadTwo 0 (fun _ _ => 1) (fun _ _ => 1) 0 1000
      = Except.ok ((1 / 2) * expectation_intgrl wQuadTwo (fun _ _ => 1) 0 0 1000) :=
  C2_variational_product wQuadTwo (fun _ _ => 1) (fun _ _ => 1) 0 0 1000 (1 / 2)
    (by norm_num [norm_intgrl, wQuadTwo])

/-- Counterexample for C4 as stated: the normalisation integral is not
taken over the domain from 0 to endpt for every choice of bounds; with
a quadrature backend that reports its lower bound, starting point 3
gives a different result from starting point 0. -/
theorem C4_domains_counterexample :
    norm_intgrl wQuadLo (fun _ _ => (0 : ℚ)) 5 3 1000
      ≠ norm_intgrl wQuadLo (fun _ _ => (0 : ℚ)) 5 0 1000 := by
  norm_num [norm_intgrl, wQuadLo]

/-- C4 amended: the expectation integral always runs from the literal
lower bound 0 to endpt, ignoring stpt; the normalisation integral runs
from stpt to endpt, so the two integrals share the domain from 0 to
endpt exactly when stpt = 0, the default that var_intgrl and energy
use. -/
theorem C4_domains_amended (quad : (K → K → K) → K → K → K → K × K)
    (f g : K → K → K) (a stpt endpt : K) :
    expectation_intgrl quad f a stpt endpt = (quad f 0 endpt a).1 ∧
    (stpt = 0 → norm_intgrl quad g a stpt endpt = norm_intgrl quad g a 0 endpt) :=
  ⟨rfl, fun h => by rw [h]⟩

/-- Witness for C4 amended at stpt = 0. -/
theorem C4_domains_amended_witness :
    expectation_intgrl wQuadTwo (fun _ _ => (1 : ℚ)) 0 0 1000
        = (wQuadTwo (fun _ _ => (1 : ℚ)) 0 1000 0).1 ∧
    norm_intgrl wQuadTwo (fun _ _ => (1 : ℚ)) 0 0 1000
        = norm_intgrl wQuadTwo (fun _ _ => (1 : ℚ)) 0 0 1000 :=
  ⟨(C4_domains_amended wQuadTwo (fun _ _ => 1) (fun _ _ => 1) 0 0 1000).1,
   (C4_domains_amended wQuadTwo (fun _ _ => 1) (fun _ _ => 1) 0 0 1000).2 rfl⟩

/-- Counterexample for C5 as stated: a result is not returned only when
the integral is strictly positive; with a quadrature backend returning
-1 the function returns the value -1 although the integral is
negative. -/
theorem C5_division_counterexample :
    (wQuadNeg (fun _ _ => (0 : ℚ)) 0 1000 0).1 < 0 ∧
    norm_intgrl wQuadNeg (fun _ _ => (0 : ℚ)) 0 0 1000 = Except.ok (-1) := by
  constructor
  · norm_num [wQuadNeg]
  · norm_num [norm_intgrl, wQuadNeg]

/-- C5 amended: norm_intgrl fails with ZeroDivisionError exactly when
the normalisation integral evaluates to zero; for every nonzero value,
positive or negative, it returns the reciprocal. -/
theorem C5_division_amended (quad : (K → K → K) → K → K → K → K × K)
    (g : K → K → K) (a stpt endpt : K) :
    ((quad g stpt endpt a).1 = 0 →
        norm_intgrl quad g a stpt endpt = Except.error PyErr.zeroDivision) ∧
    ((quad g stpt endpt a).1 ≠ 0 →
        norm_intgrl quad g a stpt endpt = Except.ok (1 / (quad g stpt endpt a).1)) := by
  constructor <;> intro h <;> simp [norm_intgrl, h]

/-- Witness for C5 amended: the zero branch with the zero backend, the
nonzero branch with the constant backend returning 2. -/
theorem C5_division_amended_witness :
    norm_intgrl wQuadZero (fun _ _ => (0 : ℚ)) 0 0 1000 = Except.error PyErr.zeroDivision ∧
    norm_intgrl wQuadTwo (fun _ _ => (0 : ℚ)) 0 0 1000
      = Except.ok (1 / (wQuadTwo (fun _ _ => (0 : ℚ)) 0 1000 0).1) :=
  ⟨(C5_division_amended wQuadZero (fun _ _ => 0) 0 0 1000).1 rfl,
   (C5_division_amended wQuadTwo (fun _ _ => 0) 0 0 1000).2 (by norm_num [wQuadTwo])⟩

/-- Counterexample for C6 as stated: the normalisation integrand built
by the source is not the simplified product required by the
specification side definition; a simplifier that rewrites everything to
the zero constant distinguishes them on the trial function psi = r. -/
theorem C6_simplify_counterexample :
    normIntegrand SymExpr.varR
      ≠ specNormIntegrand (fun _ => SymExpr.const 0) SymExpr.varR := by
  decide

/-- C6 amended: simplification is applied to the expectation integrand
conjugate(psi) * H(psi) only; the normalisation integrand is the raw
product conjugate(psi) * psi; both are multiplied by the spherical
volume Jacobian r^2 before lambdification. -/
theorem C6_builder_amended (simplifyF : SymExpr → SymExpr) (psi : SymExpr) :
    expectationIntegrand simplifyF psi
        = SymExpr.mul (simplifyF (SymExpr.mul (SymExpr.conj psi) (H psi)))
            (SymExpr.pow SymExpr.varR 2) ∧
    normIntegrand psi
        = SymExpr.mul (SymExpr.mul (SymExpr.conj psi) psi) (SymExpr.pow SymExpr.varR 2) :=
  ⟨rfl, rfl⟩

/-- When every candidate succeeds, the candidate loop returns the list
of per-candidate results, aligned with the candidates in order. -/
theorem runPipeline_ok (F : SymExpr → Except PyErr (K × K)) :
    ∀ l : List SymExpr, (∀ psi ∈ l, ∃ v, F psi = Except.ok v) →
      ∃ rs, runPipeline F l = Except.ok rs ∧
        List.Forall₂ (fun psi v => F psi = Except.ok v) l rs := by
  intro l
  induction l with
  | nil =>
      intro _
      exact ⟨[], rfl, List.Forall₂.nil⟩
  | cons psi rest ih =>
      intro h
      obtain ⟨v, hv⟩ := h psi (List.mem_cons_self psi rest)
      obtain ⟨rs, hrs, hfa⟩ := ih fun q hq => h q (List.mem_cons_of_mem psi hq)
      exact ⟨v :: rs, by simp [runPipeline, hv, hrs], List.Forall₂.cons hv hfa⟩

/-- The first failing candidate makes the candidate loop fail with the
same error, independently of the candidates after it. -/
theorem runPipeline_error (F : SymExpr → Except PyErr (K × K)) (e : PyErr)
    (bad : SymExpr) (post : List SymExpr) :
    ∀ pre : List SymExpr, (∀ psi ∈ pre, ∃ v, F psi = Except.ok v) →
      F bad = Except.error e →
      runPipeline F (pre ++ bad :: post) = Except.error e := by
  intro pre
  induction pre with
  | nil =>
      intro _ hbad
      simp [runPipeline, hbad]
  | cons q rest ih =>
      intro h hbad
      obtain ⟨v, hv⟩ := h q (List.mem_cons_self q rest)
      have hr := ih (fun x hx => h x (List.mem_cons_of_mem q hx)) hbad
      simp [runPipeline, hv, hr]

/-- The left fold of the binary minimum, the way Python min consumes a
nonempty list, lands in the list. -/
theorem foldl_min_mem : ∀ (es : List K) (e : K), es.foldl min e ∈ e :: es := by
  intro es
  induction es with
  | nil =>
      intro e
      simp
  | cons x xs ih =>
      intro e
      simp only [List.foldl_cons]
      rcases List.mem_cons.mp (ih (min e x)) with h1 | h2
      · rcases min_choice e x with hc | hc
        · rw [h1, hc]
          exact List.mem_cons_self e (x :: xs)
        · rw [h1, hc]
          exact List.mem_cons_of_mem e (List.mem_cons_self x xs)
      · exact List.mem_cons_of_mem e (List.mem_cons_of_mem x h2)

/-- The left fold of the binary minimum is a lower bound of the seed
and every element of the list. -/
theorem foldl_min_le : ∀ (es : List K) (e x : K), x ∈ e :: es → es.foldl min e ≤ x := by
  intro es
  induction es with
  | nil =>
      intro e x hx
      simp only [List.mem_singleton] at hx
      simp [hx]
  | cons y ys ih =>
      intro e x hx
      simp only [List.foldl_cons]
      rcases List.mem_cons.mp hx with h1 | h2
      · have hh := ih (min e y) (min e y) (List.mem_cons_self (min e y) ys)
        exact h1 ▸ hh.trans (min_le_left e y)
      · rcases List.mem_cons.mp h2 with h3 | h4
        · have hh := ih (min e y) (min e y) (List.mem_cons_self (min e y) ys)
          exact h3 ▸ hh.trans (min_le_right e y)
        · exact ih (min e y) x (List.mem_cons_of_mem (min e y) h4)

/-- C3: for a nonempty ordered collection of trial functions on which
every pipeline run succeeds, the driver produces exactly one result per
candidate in order (captured by Forall₂, which also forces equal
lengths), and main returns a value that is a member of the collected
energies and a lower bound of all of them, i.e. their minimum. -/
theorem C3_driver_min_of_energies (expF : K → K) (simplifyF : SymExpr → SymExpr)
    (quad : (K → K → K) → K → K → K → K × K)
    (fmin : (K → Except PyErr K) → K → Except PyErr (K × K))
    (trialfuncs : List SymExpr) (hne : trialfuncs ≠ [])
    (h : ∀ psi ∈ trialfuncs, ∃ v, energy expF simplifyF quad fmin psi = Except.ok v) :
    ∃ results : List (K × K),
      runPipeline (energy expF simplifyF quad fmin) trialfuncs = Except.ok results ∧
      List.Forall₂ (fun psi v => energy expF simplifyF quad fmin psi = Except.ok v)
        trialfuncs results ∧
      ∃ m : K, main expF simplifyF quad fmin trialfuncs = Except.ok m ∧
        m ∈ results.map Prod.snd ∧ ∀ x ∈ results.map Prod.snd, m ≤ x := by
  obtain ⟨rs, hrs, hfa⟩ := runPipeline_ok (energy expF simplifyF quad fmin) trialfuncs h
  refine ⟨rs, hrs, hfa, ?_⟩
  have hlen := hfa.length_eq
  cases rs with
  | nil =>
      cases trialfuncs with
      | nil => exact absurd rfl hne
      | cons q l => simp at hlen
  | cons v vs =>
      refine ⟨(vs.map Prod.snd).foldl min v.2, ?_, ?_, ?_⟩
      · simp [main, hrs]
      · simpa using foldl_min_mem (vs.map Prod.snd) v.2
      · intro x hx
        apply foldl_min_le
        simpa using hx

/-- Witness for C3: one candidate, the constant trial function 1, with
the rational backends; its pipeline value is (1/10, -1/1000). -/
theorem C3_driver_min_of_energies_witness :
    ∃ results : List (ℚ × ℚ),
      runPipeline (energy wExpF wSimplify wQuad wFmin) [SymExpr.const 1]
          = Except.ok results ∧
      List.Forall₂ (fun psi v => energy wExpF wSimplify wQuad wFmin psi = Except.ok v)
        [SymExpr.const 1] results ∧
      ∃ m : ℚ, main wExpF wSimplify wQuad wFmin [SymExpr.const 1] = Except.ok m ∧
        m ∈ results.map Prod.snd ∧ ∀ x ∈ results.map Prod.snd, m ≤ x :=
  C3_driver_min_of_energies wExpF wSimplify wQuad wFmin [SymExpr.const 1] (by simp)
    (by
      intro psi hpsi
      simp only [List.mem_singleton] at hpsi
      subst hpsi
      refine ⟨(1 / 10, -1 / 1000), ?_⟩
      norm_num [energy, wExpF, wSimplify, wQuad, wFmin, var_intgrl, norm_intgrl,
        expectation_intgrl, expectationIntegrand, normIntegrand, jacobian, H, del2,
        sdiff, eval])

/-- C7: if the pipeline fails on some candidate with error e, while all
candidates before it succeed, then the driver fails with that same
error — no overall result is produced — and its outcome does not depend
on the candidates after the failing one, which are never evaluated. -/
theorem C7_fail_fast (expF : K → K) (simplifyF : SymExpr → SymExpr)
    (quad : (K → K → K) → K → K → K → K × K)
    (fmin : (K → Except PyErr K) → K → Except PyErr (K × K))
    (pre post : List SymExpr) (bad : SymExpr) (e : PyErr)
    (h1 : ∀ psi ∈ pre, ∃ v, energy expF simplifyF quad fmin psi = Except.ok v)
    (h2 : energy expF simplifyF quad fmin bad = Except.error e) :
    main expF simplifyF quad fmin (pre ++ bad :: post) = Except.error e ∧
    main expF simplifyF quad fmin (pre ++ bad :: post)
      = main expF simplifyF quad fmin (pre ++ [bad]) := by
  have ha := runPipeline_error (energy expF simplifyF quad fmin) e bad post pre h1 h2
  have hb := runPipeline_error (energy expF simplifyF quad fmin) e bad [] pre h1 h2
  constructor
  · simp [main, ha]
  · simp [main, ha, hb]

/-- Witness for C7: the constant trial function 0 makes the
normalisation integrand vanish, so its pipeline raises
ZeroDivisionError; with a succeeding candidate before it and another
after it, the driver aborts with that error and ignores the tail. -/
theorem C7_fail_fast_witness :
    main wExpF wSimplify wQuad wFmin
        ([SymExpr.const 1] ++ SymExpr.const 0 :: [SymExpr.const 1])
      = Except.error PyErr.zeroDivision ∧
    main wExpF wSimplify wQuad wFmin
        ([SymExpr.const 1] ++ SymExpr.const 0 :: [SymExpr.const 1])
      = main wExpF wSimplify wQuad wFmin ([SymExpr.const 1] ++ [SymExpr.const 0]) :=
  C7_fail_fast wExpF wSimplify wQuad wFmin [SymExpr.const 1] [SymExpr.const 1]
    (SymExpr.const 0) PyErr.zeroDivision
    (by
      intro psi hpsi
      simp only [List.mem_singleton] at hpsi
      subst hpsi
      refine ⟨(1 / 10, -1 / 1000), ?_⟩
      norm_num [energy, wExpF, wSimplify, wQuad, wFmin, var_intgrl, norm_intgrl,
        expectation_intgrl, expectationIntegrand, normIntegrand, jacobian, H, del2,
        sdiff, eval])
    (by
      norm_num [energy, wExpF, wSimplify, wQuad, wFmin, var_intgrl, norm_intgrl,
        expectation_intgrl, expectationIntegrand, normIntegrand, jacobian, H, del2,
        sdiff, eval])

/-- C8: the full pipeline is a pure function of the trial function and
the numeric backends; two runs on equal inputs produce identical
(parameter, energy) outcomes.  The embedding is deterministic by
construction because the source pipeline consults no randomness and no
mutable state: the initial guess is the literal 0.1 and quad and fmin
are deterministic routines. -/
theorem C8_deterministic (expF : K → K) (simplifyF : SymExpr → SymExpr)
    (quad : (K → K → K) → K → K → K → K × K)
    (fmin : (K → Except PyErr K) → K → Except PyErr (K × K))
    (psi1 psi2 : SymExpr) (h : psi1 = psi2) :
    energy expF simplifyF quad fmin psi1 = energy expF simplifyF quad fmin psi2 := by
  rw [h]

/-- Witness for C8 on the trial function psi = r. -/
theorem C8_deterministic_witness :
    energy wExpF wSimplify wQuad wFmin SymExpr.varR
      = energy wExpF wSimplify wQuad wFmin SymExpr.varR :=
  C8_deterministic wExpF wSimplify wQuad wFmin SymExpr.varR SymExpr.varR rfl

/-- C9: evaluation of the Monte Carlo integrator at a concrete input
exhibiting the off-by-one divisor.  With the constant density and
constant observable 1, two sampling iterations, one walker, six
dimensions and constant random streams, the sampler collects exactly
one sample (iterations with index 0 are skipped), so the arithmetic
average of the sampled observable values is 1; the integrator
nevertheless reports 1/2, because it divides the sum by sample_iter
rather than by the number of samples taken. -/
theorem C9_per_walker_divisor :
    (integrator_mcmc (K := ℚ) (fun _ _ => 1) (fun _ _ => 1) 2 1 0 6 id
        (fun _ => 1 / 2) (fun _ => 0)).1 = 1 / 2 ∧
    ((metropolis_hastings (K := ℚ) (fun _ _ => 1) 2 0 6
        (fun _ => 1 / 2) (fun _ => 0)).1).length = 1 := by
  constructor
  · norm_num [integrator_mcmc, metropolis_hastings, mhStep, List.range_succ]
  · norm_num [metropolis_hastings, mhStep, List.range_succ]

/-- C10: on an empty collection of trial functions the driver reaches
min of an empty sequence, which raises ValueError; no overall energy is
returned. -/
theorem C10_empty_min_valueerror (expF : K → K) (simplifyF : SymExpr → SymExpr)
    (quad : (K → K → K) → K → K → K → K × K)
    (fmin : (K → Except PyErr K) → K → Except PyErr (K × K)) :
    main expF simplifyF quad fmin ([] : List SymExpr)
      = Except.error PyErr.valueError := rfl

end QuVario
